import Mathlib

/-!
Verification of the beopsuny-template legal-information toolkit.

This file gives a shallow embedding, in Lean 4, of the parts of the
repository that the specified properties talk about:

* the filename sanitizer and the HTML-cleaning helper of the law fetcher,
* the field extraction helpers of the bill fetcher,
* the fetch gateway's relay request construction and retry loop,
* the amendment checker's checkpoint handling,
* the credential lookup of the policy fetcher,
* the HTTP proxy wrapper's request forwarding (src/proxy-wrapper/proxy_wrapper.py),
* the permits generator's exit-code discipline (src/tools/permits/generate_permits.py).

The fetcher scripts themselves (fetch_law.py, fetch_bill.py, fetch_policy.py
and their common gateway module) are not part of the source tree here; their
behaviour is modelled from the specification, with unit tests of the
repository (src/tests/) pinning the concrete cases.  Definitions carrying a
`Modelled from the spec:` doc comment are of that kind; the rest are
translated directly from the Python sources.
-/

namespace Beopsuny

/-! ## Filename sanitizer (fetch_law.py `_sanitize_filename`) -/

/-- A JSON record as the bill API returns it: an association list from field
name to an optional string value (`none` models both JSON `null` values and
Python `None`). -/
def BillItem := List (String × Option String)

/-- Python `item.get(k)`: `none` when the key is absent or its value is
`None`. -/
def dictGet (item : BillItem) (k : String) : Option String :=
  match item.find? (fun p => p.1 = k) with
  | some (_, v) => v
  | none => none

/-- Modelled from the spec: the `a or b or ""` fallback chain used by the
extraction helpers of fetch_bill.py (script not under src/; behaviour pinned
by src/tests/test_fetch_bill.py).  Tries each candidate field in priority
order and takes the first non-empty value; a missing, `None` or empty value
falls through to the next candidate; no candidate left yields `""`. -/
def firstNonEmpty (item : BillItem) : List String → String
  | [] => ""
  | k :: rest =>
    match dictGet item k with
    | some v => if v = "" then firstNonEmpty item rest else v
    | none => firstNonEmpty item rest

/-- Modelled from the spec: `_extract_committee` of fetch_bill.py — prefers
`CURR_COMMITTEE`, falls back to `COMMITTEE`, defaults to `""`. -/
def extractCommittee (item : BillItem) : String :=
  firstNonEmpty item ["CURR_COMMITTEE", "COMMITTEE"]

/-- The normalized bill dictionary built by `_build_bill_dict`. -/
structure BillDict where
  bill_no : String
  name : String
  proposer : String
  propose_date : String
  committee : String
  bill_id : Option String
  proc_result : Option String
  deriving DecidableEq, Repr

/-- Modelled from the spec: `_build_bill_dict` of fetch_bill.py — builds the
standardized bill dictionary with empty-string defaults; `bill_id` and
`proc_result` only appear when requested; `proposer` prefers `RST_PROPOSER`
over `PROPOSER` unless `proposer_only` is set. -/
def buildBillDict (item : BillItem) (include_bill_id : Bool := false)
    (include_proc_result : Bool := false) (proposer_only : Bool := false) :
    BillDict where
  bill_no := firstNonEmpty item ["BILL_NO"]
  name := firstNonEmpty item ["BILL_NAME"]
  proposer :=
    if proposer_only then firstNonEmpty item ["PROPOSER"]
    else firstNonEmpty item ["RST_PROPOSER", "PROPOSER"]
  propose_date := firstNonEmpty item ["PROPOSE_DT"]
  committee := extractCommittee item
  bill_id := if include_bill_id then some (firstNonEmpty item ["BILL_ID"]) else none
  proc_result :=
    if include_proc_result then some (firstNonEmpty item ["PROC_RESULT"]) else none

/-- C3: field extraction takes the first non-empty candidate, falls through
on missing/`None`/empty values, yields `""` when no candidate is non-empty;
`_extract_committee` prefers `CURR_COMMITTEE`; `_build_bill_dict` of the
empty item is all empty strings. -/
theorem fieldExtraction_firstNonEmpty (item : BillItem) (k : String)
    (rest : List String) :
    (∀ v, dictGet item k = some v → v ≠ "" →
      firstNonEmpty item (k :: rest) = v) ∧
    ((dictGet item k = none ∨ dictGet item k = some "") →
      firstNonEmpty item (k :: rest) = firstNonEmpty item rest) ∧
    (∀ keys : List String,
      (∀ k' ∈ keys, dictGet item k' = none ∨ dictGet item k' = some "") →
      firstNonEmpty item keys = "") ∧
    (∀ v, dictGet item "CURR_COMMITTEE" = some v → v ≠ "" →
      extractCommittee item = v) ∧
    buildBillDict [] = ⟨"", "", "", "", "", none, none⟩ := by
  have hstep : ∀ (k' : String) (rest' : List String),
      (dictGet item k' = none ∨ dictGet item k' = some "") →
      firstNonEmpty item (k' :: rest') = firstNonEmpty item rest' := by
    intro k' rest' h
    rcases h with h | h <;> simp [firstNonEmpty, h]
  have htake : ∀ (k' : String) (rest' : List String) (v : String),
      dictGet item k' = some v → v ≠ "" →
      firstNonEmpty item (k' :: rest') = v := by
    intro k' rest' v hv hne
    simp [firstNonEmpty, hv, hne]
  refine ⟨fun v hv hne => htake _ _ _ hv hne, hstep k rest, ?_, ?_, ?_⟩
  · intro keys hall
    induction keys with
    | nil => rfl
    | cons k' rest' ih =>
      rw [hstep k' rest' (hall k' (List.mem_cons_self ..))]
      exact ih (fun k'' h'' => hall k'' (List.mem_cons_of_mem _ h''))
  · intro v hv hne
    exact htake _ _ _ hv hne
  · rfl

/-- C3 witness: concrete instance exercising the hypotheses of
`fieldExtraction_firstNonEmpty`. -/
theorem fieldExtraction_firstNonEmpty_witness :
    firstNonEmpty [("CURR_COMMITTEE", some "a"), ("COMMITTEE", some "b")]
      ["CURR_COMMITTEE", "COMMITTEE"] = "a" :=
  (fieldExtraction_firstNonEmpty
      [("CURR_COMMITTEE", some "a"), ("COMMITTEE", some "b")]
      "CURR_COMMITTEE" ["COMMITTEE"]).1 "a" (by decide) (by decide)

/-! ## Credential lookup (fetch_policy.py `get_oc_code`) -/

/-- Modelled from the spec: `get_oc_code` of fetch_policy.py (script not
under src/; behaviour pinned by src/tests/test_fetch_policy.py).  The
environment variable `BEOPSUNY_OC_CODE` has highest precedence; the
settings-file key `oc_code` is the fallback when the environment variable is
absent; when neither source provides a code a `ValueError` mentioning
"OC code not found" is raised, modelled as `Except.error`. -/
def getOcCode (env : Option String) (config : List (String × String)) :
    Except String String :=
  match env with
  | some v => .ok v
  | none =>
    match config.find? (fun p => p.1 = "oc_code") with
    | some (_, v) => .ok v
    | none => .error "OC code not found. Set BEOPSUNY_OC_CODE environment variable or add oc_code to settings.yaml"

/-- C7: credential lookup precedence — environment wins when set, the
settings file is used only when the environment variable is absent, and when
neither source has a code the result is an error whose message contains
"OC code not found" (never a default value). -/
theorem getOcCode_precedence (config : List (String × String)) :
    (∀ v, getOcCode (some v) config = .ok v) ∧
    (∀ v, config.find? (fun p => p.1 = "oc_code") = some ("oc_code", v) →
      getOcCode none config = .ok v) ∧
    (config.find? (fun p => p.1 = "oc_code") = none →
      ∃ msg, getOcCode none config = .error msg ∧
        (msg.data.take 17 = "OC code not found".data)) := by
  refine ⟨fun v => rfl, ?_, ?_⟩
  · intro v hv
    simp [getOcCode, hv]
  · intro h
    refine ⟨"OC code not found. Set BEOPSUNY_OC_CODE environment variable or add oc_code to settings.yaml", by simp [getOcCode, h], by decide⟩

/-- C7 witness: concrete instance exercising the hypotheses of
`getOcCode_precedence`. -/
theorem getOcCode_precedence_witness :
    getOcCode none [("oc_code", "file_oc_code")] = .ok "file_oc_code" :=
  (getOcCode_precedence [("oc_code", "file_oc_code")]).2.1 "file_oc_code"
    (by decide)

/-! ## HTML cleaning (fetch_law.py `_clean_html_text`) -/

/-- Modelled from the spec: the line-break conversion step of
`_clean_html_text` (fetch_law.py is not under src/; behaviour pinned by
src/tests/test_fetch_law.py).  Replaces each `<br>` / `<br/>` occurrence by
a literal newline, scanning left to right. -/
def convBreaks : List Char → List Char
  | '<' :: 'b' :: 'r' :: '>' :: rest => '\n' :: convBreaks rest
  | '<' :: 'b' :: 'r' :: '/' :: '>' :: rest => '\n' :: convBreaks rest
  | c :: rest => c :: convBreaks rest
  | [] => []

/-- Modelled from the spec: the tag-removal step of `_clean_html_text` —
drops every span from `<` to the next `>` (the Boolean says whether the
scanner is currently inside a tag). -/
def stripTags : List Char → Bool → List Char
  | [], _ => []
  | '<' :: rest, false => stripTags rest true
  | '>' :: rest, true => stripTags rest false
  | _ :: rest, true => stripTags rest true
  | c :: rest, false => c :: stripTags rest false

/-- Modelled from the spec: `_clean_html_text` — optionally convert break
tags to newlines, then strip all remaining tags, then optionally truncate to
`maxLength` characters with an `"..."` marker appended only when truncation
actually occurred. -/
def cleanHtmlText (text : String) (preserveBreaks : Bool := false)
    (maxLength : Option Nat := none) : String :=
  let cleaned :=
    stripTags (if preserveBreaks then convBreaks text.data else text.data)
      false
  match maxLength with
  | some n => if cleaned.length > n then ⟨cleaned.take n ++ "...".data⟩
              else ⟨cleaned⟩
  | none => ⟨cleaned⟩

theorem convBreaks_cons_ne (c : Char) (l : List Char) (h : c ≠ '<') :
    convBreaks (c :: l) = c :: convBreaks l := by
  rw [convBreaks.eq_def]
  split <;> simp_all

theorem stripTags_cons_ne (c : Char) (l : List Char) (h : c ≠ '<') :
    stripTags (c :: l) false = c :: stripTags l false := by
  rw [stripTags.eq_def]
  split <;> simp_all

theorem convBreaks_eq_self {l : List Char} (h : ∀ c ∈ l, c ≠ '<') :
    convBreaks l = l := by
  induction l with
  | nil => rfl
  | cons c rest ih =>
    rw [convBreaks_cons_ne c rest (h c (List.mem_cons_self ..)),
      ih (fun c' hc' => h c' (List.mem_cons_of_mem _ hc'))]

theorem stripTags_eq_self {l : List Char} (h : ∀ c ∈ l, c ≠ '<') :
    stripTags l false = l := by
  induction l with
  | nil => rfl
  | cons c rest ih =>
    rw [stripTags_cons_ne c rest (h c (List.mem_cons_self ..)),
      ih (fun c' hc' => h c' (List.mem_cons_of_mem _ hc'))]

/-- C2: on tag-free text (which is what the truncation stage operates on),
`_clean_html_text` with `max_length = n` returns exactly `text[:n] ++ "..."`
when the text is longer than `n` and the text unchanged otherwise; hence
re-applying it to an already-short text is the identity. -/
theorem cleanHtmlText_truncation (text : String) (n : Nat)
    (htag : ∀ c ∈ text.data, c ≠ '<') :
    (text.length > n → cleanHtmlText text false (some n) =
      ⟨text.data.take n⟩ ++ "...") ∧
    (text.length ≤ n → cleanHtmlText text false (some n) = text) ∧
    (text.length ≤ n →
      cleanHtmlText (cleanHtmlText text false (some n)) false (some n) =
        text) := by
  have hid : stripTags text.data false = text.data := stripTags_eq_self htag
  have hlen : text.length = text.data.length := rfl
  refine ⟨?_, ?_, ?_⟩
  · intro hgt
    simp only [cleanHtmlText, if_neg (Bool.false_ne_true), hid]
    rw [if_pos (by omega)]
    rfl
  · intro hle
    simp only [cleanHtmlText, if_neg (Bool.false_ne_true), hid]
    rw [if_neg (by omega)]
  · intro hle
    have h2 : cleanHtmlText text false (some n) = text := by
      simp only [cleanHtmlText, if_neg (Bool.false_ne_true), hid]
      rw [if_neg (by omega)]
    rw [h2, h2]

/-- C2 witness: concrete truncation, exercising the hypotheses of
`cleanHtmlText_truncation`. -/
theorem cleanHtmlText_truncation_witness :
    cleanHtmlText "abcde" false (some 3) = "abc..." := by
  have h := (cleanHtmlText_truncation "abcde" 3 (by decide)).1 (by decide)
  rw [h]
  decide

/-! ### HTML-bearing input, as a sequence of text runs and tags -/

/-- A well-formed HTML-bearing input: a sequence of text runs and tags
(`tag n` renders as `<n>`). -/
inductive HtmlTok where
  | txt (s : String)
  | tag (name : String)
  deriving DecidableEq, Repr

/-- Rendering a token back to the raw characters the API would send. -/
def renderTok : HtmlTok → List Char
  | .txt s => s.data
  | .tag n => '<' :: (n.data ++ ['>'])

/-- The raw input string of a token sequence. -/
def renderHtml (ts : List HtmlTok) : List Char :=
  (ts.map renderTok).flatten

/-- Is this token a line-break tag (`<br>` or `<br/>`)? -/
def isBrTok : HtmlTok → Bool
  | .tag n => n = "br" || n = "br/"
  | .txt _ => false

/-- Well-formedness: text runs contain no angle brackets and no raw
newlines; tag names contain no angle brackets. -/
def validTok : HtmlTok → Bool
  | .txt s => s.data.all (fun c => c != '<' && c != '>' && c != '\n')
  | .tag n => n.data.all (fun c => c != '<' && c != '>')

theorem validTok_txt {s : String} (h : validTok (.txt s) = true) :
    ∀ c ∈ s.data, c ≠ '<' ∧ c ≠ '>' ∧ c ≠ '\n' := by
  intro c hc
  have h' := List.all_eq_true.mp h c hc
  simp only [Bool.and_eq_true, bne_iff_ne] at h'
  exact ⟨h'.1.1, h'.1.2, h'.2⟩

theorem validTok_tag {n : String} (h : validTok (.tag n) = true) :
    ∀ c ∈ n.data, c ≠ '<' ∧ c ≠ '>' := by
  intro c hc
  have h' := List.all_eq_true.mp h c hc
  simp only [Bool.and_eq_true, bne_iff_ne] at h'
  exact h'

/-- What the break-conversion pass leaves of each token. -/
def brConvTok : HtmlTok → List Char
  | .txt s => s.data
  | .tag n => if n = "br" || n = "br/" then ['\n'] else '<' :: (n.data ++ ['>'])

/-- What the full cleaning pass (break conversion then tag stripping)
leaves of each token. -/
def cleanedTok : HtmlTok → List Char
  | .txt s => s.data
  | .tag n => if n = "br" || n = "br/" then ['\n'] else []

theorem convBreaks_append_no_lt {s : List Char} (r : List Char)
    (h : ∀ c ∈ s, c ≠ '<') :
    convBreaks (s ++ r) = s ++ convBreaks r := by
  induction s with
  | nil => rfl
  | cons c rest ih =>
    rw [List.cons_append,
      convBreaks_cons_ne c (rest ++ r) (h c (List.mem_cons_self ..)),
      ih (fun c' hc' => h c' (List.mem_cons_of_mem _ hc')), List.cons_append]

theorem convBreaks_cons_lt (t : List Char)
    (h1 : ∀ r, t ≠ 'b' :: 'r' :: '>' :: r)
    (h2 : ∀ r, t ≠ 'b' :: 'r' :: '/' :: '>' :: r) :
    convBreaks ('<' :: t) = '<' :: convBreaks t := by
  rw [convBreaks.eq_def]
  split <;> simp_all
  rename_i heq
  exact heq.1.symm

theorem convBreaks_tag {n : List Char} (r : List Char)
    (hn : ∀ c ∈ n, c ≠ '<' ∧ c ≠ '>')
    (hbr : n ≠ ['b', 'r']) (hbr2 : n ≠ ['b', 'r', '/']) :
    convBreaks ('<' :: (n ++ ('>' :: r))) =
      '<' :: (n ++ ('>' :: convBreaks r)) := by
  have hstep : convBreaks ('<' :: (n ++ ('>' :: r))) =
      '<' :: convBreaks (n ++ ('>' :: r)) := by
    apply convBreaks_cons_lt
    · intro r' hr'
      match n, hr' with
      | [], hr' => exact absurd (List.cons.injEq .. ▸ hr').1 (by decide)
      | [a], hr' =>
        simp only [List.cons_append, List.nil_append, List.cons.injEq] at hr'
        exact absurd hr'.2.1 (by decide)
      | [a, b], hr' =>
        simp only [List.cons_append, List.nil_append, List.cons.injEq] at hr'
        exact hbr (by rw [hr'.1, hr'.2.1])
      | a :: b :: c :: m, hr' =>
        simp only [List.cons_append, List.cons.injEq] at hr'
        exact (hn c (by simp)).2 hr'.2.2.1
    · intro r' hr'
      match n, hr' with
      | [], hr' => exact absurd (List.cons.injEq .. ▸ hr').1 (by decide)
      | [a], hr' =>
        simp only [List.cons_append, List.nil_append, List.cons.injEq] at hr'
        exact absurd hr'.2.1 (by decide)
      | [a, b], hr' =>
        simp only [List.cons_append, List.nil_append, List.cons.injEq] at hr'
        exact absurd hr'.2.2.1 (by decide)
      | [a, b, c], hr' =>
        simp only [List.cons_append, List.nil_append, List.cons.injEq] at hr'
        exact hbr2 (by rw [hr'.1, hr'.2.1, hr'.2.2.1])
      | a :: b :: c :: d :: m, hr' =>
        simp only [List.cons_append, List.cons.injEq] at hr'
        exact (hn d (by simp)).2 hr'.2.2.2.1
  rw [hstep, convBreaks_append_no_lt ('>' :: r) (fun c hc => (hn c hc).1),
    convBreaks_cons_ne '>' r (by decide)]

/-- The break-conversion pass acts tokenwise on a well-formed input. -/
theorem convBreaks_renderHtml (ts : List HtmlTok)
    (hv : ∀ t ∈ ts, validTok t = true) :
    convBreaks (renderHtml ts) = (ts.map brConvTok).flatten := by
  induction ts with
  | nil => rfl
  | cons t rest ih =>
    have hrest := ih (fun t' ht' => hv t' (List.mem_cons_of_mem _ ht'))
    have ht := hv t (List.mem_cons_self ..)
    rw [renderHtml, List.map_cons, List.flatten_cons, List.map_cons,
      List.flatten_cons]
    rw [renderHtml] at hrest
    match t with
    | .txt s =>
      rw [renderTok, brConvTok,
        convBreaks_append_no_lt _ (fun c hc => (validTok_txt ht c hc).1),
        hrest]
    | .tag n =>
      by_cases hbr : n = "br"
      · subst hbr
        show convBreaks ('<' :: 'b' :: 'r' :: '>' ::
          (List.map renderTok rest).flatten) = _
        rw [convBreaks, hrest]
        rfl
      · by_cases hbr2 : n = "br/"
        · subst hbr2
          show convBreaks ('<' :: 'b' :: 'r' :: '/' :: '>' ::
            (List.map renderTok rest).flatten) = _
          rw [convBreaks, hrest]
          rfl
        · have hd : n.data ≠ ['b', 'r'] := fun hd =>
            hbr (by cases n; simp_all)
          have hd2 : n.data ≠ ['b', 'r', '/'] := fun hd =>
            hbr2 (by cases n; simp_all)
          rw [renderTok, List.cons_append, List.append_assoc]
          show convBreaks ('<' :: (n.data ++ ('>' ::
            (List.map renderTok rest).flatten))) = _
          rw [convBreaks_tag _ (validTok_tag ht) hd hd2, hrest, brConvTok]
          simp [hbr, hbr2]


theorem stripTags_cons_lt (l : List Char) :
    stripTags ('<' :: l) false = stripTags l true := by
  rw [stripTags]

theorem stripTags_cons_gt_true (l : List Char) :
    stripTags ('>' :: l) true = stripTags l false := by
  simp [stripTags]

theorem stripTags_cons_true_ne (c : Char) (l : List Char) (h : c ≠ '>') :
    stripTags (c :: l) true = stripTags l true := by
  rw [stripTags.eq_def]
  split <;> simp_all

theorem stripTags_append_no_lt {s : List Char} (r : List Char)
    (h : ∀ c ∈ s, c ≠ '<') :
    stripTags (s ++ r) false = s ++ stripTags r false := by
  induction s with
  | nil => rfl
  | cons c rest ih =>
    rw [List.cons_append,
      stripTags_cons_ne c (rest ++ r) (h c (List.mem_cons_self ..)),
      ih (fun c' hc' => h c' (List.mem_cons_of_mem _ hc')), List.cons_append]

theorem stripTags_append_true {s : List Char} (r : List Char)
    (h : ∀ c ∈ s, c ≠ '>') :
    stripTags (s ++ r) true = stripTags r true := by
  induction s with
  | nil => rfl
  | cons c rest ih =>
    rw [List.cons_append,
      stripTags_cons_true_ne c (rest ++ r) (h c (List.mem_cons_self ..)),
      ih (fun c' hc' => h c' (List.mem_cons_of_mem _ hc'))]

/-- The tag-stripping pass acts tokenwise on the break-converted input. -/
theorem stripTags_brConv (ts : List HtmlTok)
    (hv : ∀ t ∈ ts, validTok t = true) :
    stripTags ((ts.map brConvTok).flatten) false =
      (ts.map cleanedTok).flatten := by
  induction ts with
  | nil => rfl
  | cons t rest ih =>
    have hrest := ih (fun t' ht' => hv t' (List.mem_cons_of_mem _ ht'))
    have ht := hv t (List.mem_cons_self ..)
    rw [List.map_cons, List.flatten_cons, List.map_cons, List.flatten_cons]
    match t with
    | .txt s =>
      rw [brConvTok, cleanedTok,
        stripTags_append_no_lt _ (fun c hc => (validTok_txt ht c hc).1),
        hrest]
    | .tag n =>
      by_cases hbr : (n = "br" || n = "br/") = true
      · rw [brConvTok, cleanedTok, if_pos hbr, if_pos hbr]
        rw [show (['\n'] ++ (List.map brConvTok rest).flatten) =
          '\n' :: (List.map brConvTok rest).flatten from rfl,
          stripTags_cons_ne _ _ (by decide), hrest]
        rfl
      · rw [brConvTok, cleanedTok, if_neg hbr, if_neg hbr]
        rw [show (('<' :: (n.data ++ ['>'])) ++
            (List.map brConvTok rest).flatten) =
          '<' :: (n.data ++ ('>' ::
            (List.map brConvTok rest).flatten)) from by simp,
          stripTags_cons_lt,
          stripTags_append_true _ (fun c hc => (validTok_tag ht c hc).2),
          stripTags_cons_gt_true, hrest]
        rfl

/-- Character-level facts about the cleaned token stream: no angle
brackets remain, and the newlines are exactly the break tags. -/
theorem cleanedTok_flatten_facts (ts : List HtmlTok)
    (hv : ∀ t ∈ ts, validTok t = true) :
    (∀ c ∈ (ts.map cleanedTok).flatten, c ≠ '<' ∧ c ≠ '>') ∧
    ((ts.map cleanedTok).flatten).count '\n' = ts.countP isBrTok := by
  induction ts with
  | nil => exact ⟨by simp, rfl⟩
  | cons t rest ih =>
    have hrest := ih (fun t' ht' => hv t' (List.mem_cons_of_mem _ ht'))
    have ht := hv t (List.mem_cons_self ..)
    rw [List.map_cons, List.flatten_cons]
    constructor
    · intro c hc
      rcases List.mem_append.mp hc with hc | hc
      · match t with
        | .txt s =>
          have := validTok_txt ht c hc
          exact ⟨this.1, this.2.1⟩
        | .tag n =>
          rw [cleanedTok] at hc
          by_cases hbr : (n = "br" || n = "br/") = true
          · rw [if_pos hbr] at hc
            rcases List.mem_singleton.mp hc with rfl
            exact ⟨by decide, by decide⟩
          · rw [if_neg hbr] at hc
            exact absurd hc (List.not_mem_nil c)
      · exact hrest.1 c hc
    · rw [List.count_append, hrest.2, List.countP_cons]
      match t with
      | .txt s =>
        have hzero : (cleanedTok (.txt s)).count '\n' = 0 := by
          rw [cleanedTok]
          exact List.count_eq_zero.mpr
            (fun hmem => (validTok_txt ht _ hmem).2.2 rfl)
        rw [hzero, isBrTok]
        simp
      | .tag n =>
        rw [cleanedTok, isBrTok]
        by_cases hbr : (n = "br" || n = "br/") = true
        · rw [if_pos hbr, hbr]
          simp [List.count_singleton]
          omega
        · rw [if_neg hbr, Bool.not_eq_true] at *
          rw [hbr]
          simp

/-- C8: on any well-formed HTML-bearing input, `_clean_html_text` with
`preserve_breaks = True` yields output with no `<` or `>` characters, and
the number of newline characters in the output equals the number of
`<br>`/`<br/>` tags in the input (break tags are converted to newlines
before the remaining tags are stripped). -/
theorem cleanHtmlText_preserveBreaks (ts : List HtmlTok)
    (hv : ∀ t ∈ ts, validTok t = true) :
    (∀ c ∈ (cleanHtmlText ⟨renderHtml ts⟩ true none).data,
      c ≠ '<' ∧ c ≠ '>') ∧
    (cleanHtmlText ⟨renderHtml ts⟩ true none).data.count '\n' =
      ts.countP isBrTok := by
  have hdata : (cleanHtmlText ⟨renderHtml ts⟩ true none).data =
      (ts.map cleanedTok).flatten := by
    show stripTags (convBreaks (renderHtml ts)) false = _
    rw [convBreaks_renderHtml ts hv, stripTags_brConv ts hv]
  rw [hdata]
  exact cleanedTok_flatten_facts ts hv

/-- C8 witness: two break tags among text runs and an ordinary tag yield
exactly two newlines. -/
theorem cleanHtmlText_preserveBreaks_witness :
    (cleanHtmlText ⟨renderHtml [.txt "line1", .tag "br", .txt "line2",
      .tag "br/", .txt "x", .tag "p"]⟩ true none).data.count '\n' = 2 := by
  have h := (cleanHtmlText_preserveBreaks [.txt "line1", .tag "br",
    .txt "line2", .tag "br/", .txt "x", .tag "p"] (by decide)).2
  rw [h]
  decide

/-- What the relay answers on one attempt. -/
inductive RelayResp where
  | ok (body : String)
  | status (code : Nat)
  | connError
  | timeout
  deriving DecidableEq, Repr

/-- Transient failures the gateway retries on the relay path: origin 5xx,
connection errors, timeouts. -/
def isTransient : RelayResp → Bool
  | .status code => 500 ≤ code
  | .connError => true
  | .timeout => true
  | .ok _ => false

/-- Authentication failures, never retried. -/
def isAuthFailure : RelayResp → Bool
  | .status code => code = 401 || code = 403
  | _ => false

/-- Outcome of a gateway fetch through the relay. -/
inductive FetchOutcome where
  | success (body : String) (attempt : Nat)
  | authError (code : Nat)
  | exhausted
  | otherError (code : Nat)
  deriving DecidableEq, Repr

/-- Modelled from the spec: the gateway's relay retry loop (the common
gateway module is not under src/).  `resp n` is what the relay answers on
attempt `n` (attempts are numbered from 1); up to 3 attempts are made; a
transient failure sleeps `attempt * 2` seconds and retries; 401/403 fail
immediately with a distinct error; the sleeps performed are accumulated in
order. -/
def relayFetchGo (resp : Nat → RelayResp) (attempt : Nat)
    (sleeps : List Nat) : FetchOutcome × List Nat :=
  match resp attempt with
  | .ok body => (.success body attempt, sleeps)
  | r =>
    if isAuthFailure r then
      (.authError (match r with | .status c => c | _ => 0), sleeps)
    else if isTransient r then
      if attempt < 3 then
        relayFetchGo resp (attempt + 1) (sleeps ++ [attempt * 2])
      else (.exhausted, sleeps)
    else (.otherError (match r with | .status c => c | _ => 0), sleeps)
termination_by 3 - attempt

/-- Modelled from the spec: `fetch` on the relay path, starting at
attempt 1 with no sleeps performed yet. -/
def relayFetch (resp : Nat → RelayResp) : FetchOutcome × List Nat :=
  relayFetchGo resp 1 []

/-- C4: with a relay answering 503, 503, then 200, the gateway succeeds on
the third attempt having slept exactly twice, 2 seconds then 4 seconds; and
in general the backoff sleeps are always an initial segment of 2, 4 (at most
two sleeps, linear in the attempt number). -/
theorem relayFetch_retry_backoff :
    (∀ body : String,
      relayFetch (fun n => if n ≤ 2 then .status 503 else .ok body) =
        (.success body 3, [2, 4])) ∧
    (∀ resp : Nat → RelayResp,
      (relayFetch resp).2 = [] ∨ (relayFetch resp).2 = [2] ∨
        (relayFetch resp).2 = [2, 4]) := by
  constructor
  · intro body
    rw [relayFetch, relayFetchGo]
    norm_num [isAuthFailure, isTransient]
    rw [relayFetchGo]
    norm_num [isAuthFailure, isTransient]
    rw [relayFetchGo]
    norm_num
  · intro resp
    have go3 : ∀ s, (relayFetchGo resp 3 s).2 = s := by
      intro s
      rw [relayFetchGo]
      split
      · rfl
      · split
        · rfl
        · split
          · rw [if_neg (by norm_num)]
          · rfl
    have go2 : ∀ s, (relayFetchGo resp 2 s).2 = s ∨
        (relayFetchGo resp 2 s).2 = s ++ [4] := by
      intro s
      rw [relayFetchGo]
      split
      · exact Or.inl rfl
      · split
        · exact Or.inl rfl
        · split
          · rw [if_pos (by norm_num : (2:Nat) < 3)]
            have h3 := go3 (s ++ [2 * 2])
            norm_num at h3 ⊢
            rw [h3]
            exact Or.inr rfl
          · exact Or.inl rfl
    rw [relayFetch, relayFetchGo]
    split
    · exact Or.inl rfl
    · split
      · exact Or.inl rfl
      · split
        · rw [if_pos (by norm_num : (1:Nat) < 3)]
          have h2 := go2 ([] ++ [1 * 2])
          norm_num at h2 ⊢
          rcases h2 with h | h <;> rw [h] <;> simp
        · exact Or.inl rfl

/-! ## Relay request construction -/

/-- UTF-8 encoding of one character, as byte values. -/
def utf8Bytes (c : Char) : List Nat :=
  let n := c.toNat
  if n < 128 then [n]
  else if n < 2048 then [192 + n / 64, 128 + n % 64]
  else if n < 65536 then [224 + n / 4096, 128 + (n / 64) % 64, 128 + n % 64]
  else [240 + n / 262144, 128 + (n / 4096) % 64, 128 + (n / 64) % 64,
    128 + n % 64]

/-- UTF-8 encoding of a string, as byte values. -/
def strBytes (s : String) : List Nat :=
  (s.data.map utf8Bytes).flatten

/-- Base64: split a byte stream into 6-bit groups (big-endian within each
3-byte block; the final partial block is zero-padded on the right and the
padding characters are omitted entirely). -/
def b64sextets : List Nat → List Nat
  | a :: b :: c :: rest =>
    (a / 4) :: ((a % 4) * 16 + b / 16) :: ((b % 16) * 4 + c / 64) ::
      (c % 64) :: b64sextets rest
  | [a, b] => [a / 4, (a % 4) * 16 + b / 16, (b % 16) * 4]
  | [a] => [a / 4, (a % 4) * 16]
  | [] => []

/-- The URL-safe base64 alphabet (`-` and `_` instead of `+` and `/`). -/
def b64urlAlphabet : List Char :=
  "ABCDEFGHIJKLMNOPQRSTUVWXYZabcdefghijklmnopqrstuvwxyz0123456789-_".data

def b64urlChar (n : Nat) : Char :=
  b64urlAlphabet.getD n 'A'

/-- Modelled from the spec: the URL-safe, padding-stripped base64 encoding
(`base64.urlsafe_b64encode(url.encode()).rstrip(b"=")`) the gateway applies
to the target URL before appending it to the relay's path prefix. -/
def base64url (s : String) : String :=
  ⟨(b64sextets (strBytes s)).map b64urlChar⟩

/-- The HTTP request the gateway issues to the relay. -/
structure RelayRequest where
  method : String
  url : String
  headers : List (String × String)
  deriving DecidableEq, Repr

/-- Modelled from the spec: relay request construction in the gateway (the
common gateway module is not under src/): `GET
{relay_base}/fetch/{base64url(target_url)}` with the API key, when
configured, in the `x-api-key` header. -/
def buildRelayRequest (relayBase targetUrl : String)
    (apiKey : Option String) : RelayRequest where
  method := "GET"
  url := relayBase ++ "/fetch/" ++ base64url targetUrl
  headers := match apiKey with
    | some k => [("x-api-key", k)]
    | none => []

/-- Characters that may appear in the encoded path segment: alphanumerics
and the two URL-safe substitutes.  Notably neither `/`, `:`, nor `=`
(padding) is among them, so the raw target URL never appears in the path. -/
def urlSafeChar (c : Char) : Bool :=
  c.isAlphanum || c = '-' || c = '_'

theorem urlSafeChar_b64urlChar (n : Nat) :
    urlSafeChar (b64urlChar n) = true := by
  by_cases h : n < b64urlAlphabet.length
  · have hmem : b64urlChar n ∈ b64urlAlphabet := by
      rw [b64urlChar, List.getD_eq_getElem?_getD, List.getElem?_eq_getElem h,
        Option.getD_some]
      exact List.getElem_mem h
    revert hmem
    have hall : ∀ c ∈ b64urlAlphabet, urlSafeChar c = true := by decide
    exact hall _
  · rw [b64urlChar, List.getD_eq_default _ _ (le_of_not_lt h)]
    decide

/-- C6: the gateway's relay request is `GET
{relay_base}/fetch/{base64url(target_url)}`; every character of the encoded
segment is an alphanumeric, `-` or `_` (URL-safe alphabet, no `=` padding,
so the target URL is never passed as a raw pass-through path); the API key
goes into the `x-api-key` header exactly when configured; and the encoding
agrees with the reference value on a concrete URL. -/
theorem buildRelayRequest_form (relayBase targetUrl : String)
    (apiKey : Option String) :
    (buildRelayRequest relayBase targetUrl apiKey).method = "GET" ∧
    (buildRelayRequest relayBase targetUrl apiKey).url =
      relayBase ++ "/fetch/" ++ base64url targetUrl ∧
    (∀ c ∈ (base64url targetUrl).data, urlSafeChar c = true) ∧
    ((buildRelayRequest relayBase targetUrl apiKey).headers =
      match apiKey with
      | some k => [("x-api-key", k)]
      | none => []) ∧
    base64url "http://a.b/c" = "aHR0cDovL2EuYi9j" := by
  refine ⟨rfl, rfl, ?_, rfl, by decide⟩
  intro c hc
  rcases List.mem_map.mp hc with ⟨n, _, rfl⟩
  exact urlSafeChar_b64urlChar n

/-- C6 witness: a concrete relay request with an API key. -/
theorem buildRelayRequest_form_witness :
    (buildRelayRequest "https://relay.example" "http://a.b/c"
      (some "key")).url = "https://relay.example/fetch/aHR0cDovL2EuYi9j" := by
  have h := buildRelayRequest_form "https://relay.example" "http://a.b/c"
    (some "key")
  rw [h.2.1, h.2.2.2.2]
  decide

/-! ## Amendment checker checkpoint -/

/-- The single-scalar checkpoint state file (key `last_check`). -/
structure Checkpoint where
  last_check : String
  deriving DecidableEq, Repr

/-- Substring test on strings, via their character lists. -/
def strContains (needle haystack : String) : Bool :=
  haystack.data.tails.any (fun t => needle.data.isPrefixOf t)

/-- Modelled from the spec: the amendment checker's `check` (script not
under src/).  `originResult` is `none` when the origin call failed and
`some amended` (the list of amended law names) when it succeeded; matching
against the major-laws registry is by substring in either direction;
affected files come from the reference index; the checkpoint is advanced to
`today` only in the success branch and only when a state update was
requested. -/
def checkAmendments (originResult : Option (List String))
    (registry : List String) (refIndex : String → List String)
    (updateState : Bool) (today : String) (st : Checkpoint) :
    (List String × Bool) × Checkpoint :=
  match originResult with
  | none => (([], false), st)
  | some amended =>
    let matched := amended.filter
      (fun a => registry.any (fun r => strContains r a || strContains a r))
    let affected := matched.flatMap refIndex
    ((affected, true), if updateState then ⟨today⟩ else st)

/-- C5: a failed origin call yields `([], false)` and leaves the checkpoint
untouched even when a state update was requested; the checkpoint is
advanced (to today's date) only in the success branch and only on request —
including a successful check that found zero amendments. -/
theorem checkAmendments_checkpoint (registry : List String)
    (refIndex : String → List String) (today : String) (st : Checkpoint) :
    (∀ updateState,
      checkAmendments none registry refIndex updateState today st =
        (([], false), st)) ∧
    (∀ amended updateState,
      (checkAmendments (some amended) registry refIndex updateState today
          st).2 = if updateState then ⟨today⟩ else st) ∧
    ((checkAmendments (some []) registry refIndex true today st) =
      (([], true), ⟨today⟩)) := by
  exact ⟨fun _ => rfl, fun _ _ => rfl, rfl⟩

/-! ## HTTP proxy wrapper (src/proxy-wrapper/proxy_wrapper.py) -/

/-- What `opener.open(req, timeout=30)` can do, abstracting the upstream
proxy: a successful response (status, headers, body bytes), or one of the
exception classes caught by `_forward_request`. -/
inductive UpstreamResult where
  | success (status : Nat) (headers : List (String × String)) (body : List Nat)
  | httpError (code : Nat) (reason : String)
  | urlError (reason : String)
  | socketTimeout
  | otherExc (msg : String)

/-- The single response `_forward_request` emits for one handled request:
either the forwarded upstream response or one `send_error` call. -/
inductive HandlerResponse where
  | ok (status : Nat) (headers : List (String × String)) (body : List Nat)
  | err (code : Nat) (message : String)
  deriving DecidableEq, Repr

/-- Hop-by-hop request headers `_forward_request` drops before forwarding. -/
def hopByHopRequestHeaders : List String :=
  ["connection", "proxy-connection", "keep-alive", "proxy-authenticate",
   "proxy-authorization", "te", "trailers", "transfer-encoding", "upgrade"]

/-- Response headers `_forward_request` drops before replying. -/
def hopByHopResponseHeaders : List String :=
  ["connection", "keep-alive", "proxy-connection", "transfer-encoding"]

/-- Python `s.startswith(pre)`, over the character lists. -/
def strStartsWith (s pre : String) : Bool :=
  pre.data.isPrefixOf s.data

/-- `ProxyWrapperHandler._forward_request`: reject paths that do not start
with `http` with a 400; otherwise forward the request (with hop-by-hop
headers removed) and reply with the upstream response (its hop-by-hop
headers removed), or map each caught exception class to its error code:
upstream `HTTPError` to its own code, `URLError` to 502, socket timeout to
504, anything else to 500.  `upstream` maps the forwarded headers to the
upstream outcome. -/
def forwardRequest (path : String) (reqHeaders : List (String × String))
    (upstream : List (String × String) → UpstreamResult) : HandlerResponse :=
  if ¬ strStartsWith path "http" then
    .err 400 "Invalid URL - must start with http:// or https://"
  else
    let headers := reqHeaders.filter
      (fun p => ¬ hopByHopRequestHeaders.contains p.1.toLower)
    match upstream headers with
    | .success status respHeaders body =>
      .ok status
        (respHeaders.filter
          (fun p => ¬ hopByHopResponseHeaders.contains p.1.toLower)) body
    | .httpError code reason => .err code reason
    | .urlError reason => .err 502 ("Bad Gateway: " ++ reason)
    | .socketTimeout => .err 504 "Gateway Timeout"
    | .otherExc msg => .err 500 ("Internal Server Error: " ++ msg)

/-- C9: the proxy wrapper's handler is total over its error cases — every
handled request is either forwarded and answered with the upstream response
(hop-by-hop headers filtered) or receives exactly one classified error:
400 for a non-`http` path, the upstream's own code on an `HTTPError`,
502 on a `URLError`, 504 on a socket timeout, 500 on any other exception. -/
theorem forwardRequest_total_classification (path : String)
    (reqHeaders : List (String × String))
    (upstream : List (String × String) → UpstreamResult) :
    (strStartsWith path "http" = false →
      forwardRequest path reqHeaders upstream =
        .err 400 "Invalid URL - must start with http:// or https://") ∧
    (strStartsWith path "http" = true →
      ∀ fwd, fwd = reqHeaders.filter
          (fun p => ¬ hopByHopRequestHeaders.contains p.1.toLower) →
        (∀ status respHeaders body,
          upstream fwd = .success status respHeaders body →
          forwardRequest path reqHeaders upstream =
            .ok status
              (respHeaders.filter
                (fun p => ¬ hopByHopResponseHeaders.contains p.1.toLower))
              body) ∧
        (∀ code reason, upstream fwd = .httpError code reason →
          forwardRequest path reqHeaders upstream = .err code reason) ∧
        (∀ reason, upstream fwd = .urlError reason →
          forwardRequest path reqHeaders upstream =
            .err 502 ("Bad Gateway: " ++ reason)) ∧
        (upstream fwd = .socketTimeout →
          forwardRequest path reqHeaders upstream =
            .err 504 "Gateway Timeout") ∧
        (∀ msg, upstream fwd = .otherExc msg →
          forwardRequest path reqHeaders upstream =
            .err 500 ("Internal Server Error: " ++ msg))) := by
  constructor
  · intro h
    simp [forwardRequest, h]
  · intro h fwd hfwd
    subst hfwd
    refine ⟨?_, ?_, ?_, ?_, ?_⟩ <;>
      first
      | (intro a b c hup; simp [forwardRequest, h] at hup ⊢; rw [hup])
      | (intro a b hup; simp [forwardRequest, h] at hup ⊢; rw [hup])
      | (intro a hup; simp [forwardRequest, h] at hup ⊢; rw [hup])
      | (intro hup; simp [forwardRequest, h] at hup ⊢; rw [hup])

/-- C9 witness: concrete instance exercising the hypotheses of
`forwardRequest_total_classification`. -/
theorem forwardRequest_total_classification_witness :
    forwardRequest "ftp://x" [] (fun _ => .socketTimeout) =
        .err 400 "Invalid URL - must start with http:// or https://" ∧
    forwardRequest "http://x" [] (fun _ => .socketTimeout) =
        .err 504 "Gateway Timeout" := by
  constructor
  · exact (forwardRequest_total_classification "ftp://x" []
      (fun _ => .socketTimeout)).1 (by decide)
  · exact (((forwardRequest_total_classification "http://x" []
      (fun _ => .socketTimeout)).2 (by decide) _ rfl).2.2.2.1 rfl)

/-! ## Permits generator (src/tools/permits/generate_permits.py) -/

/-- A YAML value, as `yaml.safe_load` produces it (the subset this tool
touches): `nil` is Python `None`. -/
inductive Yaml where
  | nil
  | str (s : String)
  | list (l : List Yaml)
  | dict (d : List (String × Yaml))

/-- A YAML mapping. -/
def YDict := List (String × Yaml)

/-- Python `d.get(k)`. -/
def yget (d : YDict) (k : String) : Option Yaml :=
  (List.find? (fun p => p.1 = k) d).map (fun p => p.2)

/-- Python `d.get(k, default)`. -/
def ygetD (d : YDict) (k : String) (dflt : Yaml) : Yaml :=
  match yget d k with
  | some v => v
  | none => dflt

/-- `get_last_verified`: the `accessed` date of the first source when
`sources` is a non-empty list whose first element is a mapping carrying
`accessed`; otherwise today's date. -/
def getLastVerified (item : YDict) (today : String) : Yaml :=
  match yget item "sources" with
  | some (.list (first :: _)) =>
    match first with
    | .dict fs =>
      match yget fs "accessed" with
      | some v => v
      | none => .str today
    | _ => .str today
  | _ => .str today

/-- `transform_item`: normalizes one seed item into the final schema. -/
def transformItem (item : YDict) (today : String) : YDict :=
  [("id", ygetD item "id" .nil),
   ("name", ygetD item "name" .nil),
   ("type", ygetD item "type" .nil),
   ("category", ygetD item "category" .nil),
   ("description", ygetD item "description" .nil),
   ("law", ygetD item "law" .nil),
   ("authority", ygetD item "authority" .nil),
   ("processing", ygetD item "processing" .nil),
   ("fees", ygetD item "fees" .nil),
   ("documents", ygetD item "documents" (.list [])),
   ("requirements", ygetD item "requirements" (.list [])),
   ("penalty", ygetD item "penalty" (.list [])),
   ("related_checklists", ygetD item "related_checklists" (.list [])),
   ("priority", ygetD item "priority" (.str "medium")),
   ("gov24_url", ygetD item "gov24_url" .nil),
   ("sources", ygetD item "sources" (.list [])),
   ("last_verified", getLastVerified item today),
   ("notes", ygetD item "notes" .nil)]

end Beopsuny
